import Mathlib

/-!
Verification development for the dmlc-core CSV parser
(`src/data/csv_parser.h`): a shallow embedding of
`CSVParserParam::ExtractLabelColumnIndices` and
`CSVParser<IndexType, DType>::ParseBlock`, together with theorems about
the specified behaviour.

Modelling conventions:

* The input block `[begin, end)` is a `List Char`; a cursor (a `char`
  pointer into the block) is modelled as the suffix of the block that
  starts at the cursor, so pointer equality between two cursors of the
  same block is length equality of the suffixes, and `end` is `[]`.
* The three instantiations of the `DType` template parameter are the
  closed inductive `DTy`; parsed numeric values are `RVal` (an exact
  rational, a NaN, or a signed infinity), which is faithful for every
  input whose decimal value is representable; rounding of the binary
  float types is not modelled (no claim depends on it).
* `LOG(FATAL)` / failed `CHECK` aborts are modelled as a `fatal` flag
  (`ParseBlock` returns `none` in place of a populated row block).
* The C loops at csv_parser.h:177 and csv_parser.h:186 evaluate `*p`
  (resp. `*lend`) before testing the cursor against `lend`/`end`; when
  the cursor sits at `end` this reads one byte past the block.  The
  embedding records such a read in an `oob` flag.  The value of the
  out-of-range byte never influences control flow (whatever the byte
  is, both conjuncts of the loop condition make the loop exit), so the
  embedding stays deterministic without modelling that byte.
-/

namespace DmlcCsv

/-- The three numeric representations accepted by the parser
(csv_parser.h:147-159): `real_t` (32-bit float), `int32_t`, `int64_t`. -/
inductive DTy where
  | f32
  | i32
  | i64
deriving DecidableEq

/-- A parsed numeric value: an exact decimal `m * 10 ^ e`, a quiet NaN,
or a signed infinity (the values the modelled conversion functions can
produce).  The parser never computes with values — it only stores them
and tests the row weight with `std::isnan` — so the exact-decimal pair
is kept unreduced; no claim compares values obtained from different
textual forms of the same number. -/
inductive RVal where
  | num (m : Int) (e : Int)
  | nan
  | inf (neg : Bool)
deriving DecidableEq

/-- `std::isnan` on a parsed value (csv_parser.h:190). -/
def RVal.isNan : RVal → Bool
  | .nan => true
  | _ => false

/-- The output container populated by `ParseBlock`
(`RowBlockContainer`, declared in row_block.h). -/
structure RowBlock where
  index : List Nat
  value : List RVal
  offset : List Nat
  label : List RVal
  weight : List RVal
  label_count : Nat
deriving DecidableEq

/-- Parser-wide state while a block is parsed: the output container
under construction plus the flag recording whether a byte at or past
`end` has been read. -/
structure PSt where
  out : RowBlock
  oob : Bool
deriving DecidableEq

/-- The immutable configuration derived from `CSVParserParam` at
construction: the label column map, the weight column (`-1` = none),
the first character of the delimiter string, the numeric
representation, and `label_count`. -/
structure Config where
  labelMap : List (Nat × Nat)
  weightColumn : Int
  delim : Char
  dtype : DTy
  labelCount : Nat
deriving DecidableEq

/-! ## Character classes and digit readers (models of the C library
functions used by the source). -/

/-- C `isspace` (the whitespace set skipped by `strtof`/`strtoll`). -/
def isWS (c : Char) : Bool :=
  c = ' ' ∨ c = '\t' ∨ c = '\n' ∨ c = '\x0b' ∨ c = '\x0c' ∨ c = '\r'

/-- C `isdigit`. -/
def isDigitC (c : Char) : Bool := '0' ≤ c ∧ c ≤ '9'

/-- Is `c` a hexadecimal digit? -/
def isHexC (c : Char) : Bool :=
  isDigitC c ∨ ('a' ≤ c.toLower ∧ c.toLower ≤ 'f')

/-- Is `c` an octal digit? -/
def isOctC (c : Char) : Bool := '0' ≤ c ∧ c ≤ '7'

/-- Value of a hexadecimal digit. -/
def hexVal (c : Char) : Nat :=
  if isDigitC c then c.toNat - 48 else c.toLower.toNat - 87

/-- Read a maximal run of decimal digits, returning the accumulated
value, the number of digits read, and the rest. -/
def readDigits : List Char → Nat → Nat → Nat × Nat × List Char
  | [], acc, k => (acc, k, [])
  | c :: r, acc, k =>
    if isDigitC c then readDigits r (acc * 10 + (c.toNat - 48)) (k + 1)
    else (acc, k, c :: r)

/-- Read a maximal run of hexadecimal digits. -/
def readHex : List Char → Nat → Nat → Nat × Nat × List Char
  | [], acc, k => (acc, k, [])
  | c :: r, acc, k =>
    if isHexC c then readHex r (acc * 16 + hexVal c) (k + 1)
    else (acc, k, c :: r)

/-- Read a maximal run of octal digits. -/
def readOct : List Char → Nat → Nat → Nat × Nat × List Char
  | [], acc, k => (acc, k, [])
  | c :: r, acc, k =>
    if isOctC c then readOct r (acc * 8 + (c.toNat - 48)) (k + 1)
    else (acc, k, c :: r)

/-- Case-insensitive prefix match (`pat` is given in lower case). -/
def matchCI : List Char → List Char → Bool
  | [], _ => true
  | _, [] => false
  | p :: ps, c :: cs => c.toLower = p && matchCI ps cs

/-! ## Models of the C numeric-conversion functions. -/

/-- Model of C `strtof` as used at csv_parser.h:149, restricted to the
decimal forms (optional whitespace, optional sign, digits with optional
fraction and decimal exponent) and the `nan` / `inf` / `infinity`
keyword forms; hexadecimal float literals and `nan(...)` payloads are
not modelled (no claim exercises them).  Returns the parsed value and
the number of characters consumed; on no conversion it returns value
`0` with `0` characters consumed, exactly as `strtof` leaves `endptr`
at `nptr`. -/
def strtof (s : List Char) : RVal × Nat :=
  let wn := (s.takeWhile isWS).length
  let s1 := s.drop wn
  let sgn : Bool × Nat :=
    match s1 with
    | '-' :: _ => (true, 1)
    | '+' :: _ => (false, 1)
    | _ => (false, 0)
  let s2 := s1.drop sgn.2
  if matchCI ['n', 'a', 'n'] s2 then (RVal.nan, wn + sgn.2 + 3)
  else if matchCI ['i', 'n', 'f', 'i', 'n', 'i', 't', 'y'] s2 then
    (RVal.inf sgn.1, wn + sgn.2 + 8)
  else if matchCI ['i', 'n', 'f'] s2 then (RVal.inf sgn.1, wn + sgn.2 + 3)
  else
    let ip := readDigits s2 0 0
    let hasDot : Bool := match ip.2.2 with | '.' :: _ => true | _ => false
    let fp :=
      match ip.2.2 with
      | '.' :: r => readDigits r 0 0
      | other => (0, 0, other)
    if ip.2.1 + fp.2.1 = 0 then (RVal.num 0 0, 0)
    else
      let mantLen := ip.2.1 + fp.2.1 + (if hasDot then 1 else 0)
      let m : Int := (if sgn.1 then -1 else 1) * ((ip.1 * 10 ^ fp.2.1 + fp.1 : Nat) : Int)
      let ex : Int × Nat :=
        match fp.2.2 with
        | e :: r =>
          if e = 'e' ∨ e = 'E' then
            let esgn : Bool × Nat :=
              match r with
              | '-' :: _ => (true, 1)
              | '+' :: _ => (false, 1)
              | _ => (false, 0)
            let ed := readDigits (r.drop esgn.2) 0 0
            if ed.2.1 = 0 then ((0 : Int), 0)
            else ((if esgn.1 then -(ed.1 : Int) else (ed.1 : Int)), 1 + esgn.2 + ed.2.1)
          else ((0 : Int), 0)
        | [] => ((0 : Int), 0)
      (RVal.num m (ex.1 - (fp.2.1 : Int)), wn + sgn.2 + mantLen + ex.2)

/-- Model of C `strtoll` with base `0` as used at csv_parser.h:152 and
csv_parser.h:155: optional whitespace, optional sign, then a hexadecimal
(`0x`), octal (leading `0`) or decimal magnitude, saturating at the
`long long` range.  Returns the value and the number of characters
consumed (`0` on no conversion). -/
def strtoll (s : List Char) : Int × Nat :=
  let wn := (s.takeWhile isWS).length
  let s1 := s.drop wn
  let sgn : Bool × Nat :=
    match s1 with
    | '-' :: _ => (true, 1)
    | '+' :: _ => (false, 1)
    | _ => (false, 0)
  let s2 := s1.drop sgn.2
  let mk : Nat × Nat :=
    match s2 with
    | '0' :: x :: r =>
      if (x = 'x' ∨ x = 'X') ∧ isHexC (r.headD ' ') then
        let h := readHex r 0 0
        (h.1, 2 + h.2.1)
      else
        let o := readOct (x :: r) 0 0
        (o.1, 1 + o.2.1)
    | ['0'] => (0, 1)
    | _ =>
      let d := readDigits s2 0 0
      (d.1, d.2.1)
  if mk.2 = 0 then (0, 0)
  else
    let v : Int := if sgn.1 then -(mk.1 : Int) else (mk.1 : Int)
    let v :=
      if v < -(2 ^ 63) then -(2 ^ 63)
      else if (2 ^ 63 - 1 : Int) < v then 2 ^ 63 - 1
      else v
    (v, wn + sgn.2 + mk.2)

/-- `static_cast<int32_t>` of a `long long`: wrap modulo `2^32` into the
signed 32-bit range. -/
def wrap32 (v : Int) : Int :=
  let u := v % 4294967296
  if u < 2147483648 then u else u - 4294967296

/-- The statically dispatched per-field numeric parse
(csv_parser.h:145-159): `strtof` for `real_t`,
`static_cast<int32_t>(strtoll(p, &endptr, 0))` for `int32_t`, and
`static_cast<int64_t>(strtoll(p, &endptr, 0))` for `int64_t`.  Returns
the parsed value and the number of characters consumed
(`std::distance(p, endptr)`). -/
def parseNum (dt : DTy) (p : List Char) : RVal × Nat :=
  match dt with
  | .f32 => strtof p
  | .i32 =>
    let r := strtoll p
    (RVal.num (wrap32 r.1) 0, r.2)
  | .i64 =>
    let r := strtoll p
    (RVal.num r.1 0, r.2)

/-! ## The line/field scanner. -/

/-- The UTF-8 byte-order mark. -/
def bomChars : List Char := [Char.ofNat 0xEF, Char.ofNat 0xBB, Char.ofNat 0xBF]

/-- Modelled from the spec: the body of `TextParserBase::IgnoreUTF8BOM`
lives in text_parser.h, which is not part of the sources here; per the
spec ("If present, skip a UTF-8 byte-order-mark at the start of the
first line only") it removes a leading `EF BB BF` byte sequence, and
`ParseBlock` below applies it to the first line only. -/
def stripBOM (s : List Char) : List Char :=
  if s.take 3 = bomChars then s.drop 3 else s

/-- The newline-run skip at the start of the block (csv_parser.h:131);
this loop tests the cursor against `end` before dereferencing, so it
performs no out-of-range read. -/
def dropLeadingNL : List Char → List Char
  | [] => []
  | c :: r => if c = '\n' ∨ c = '\r' then dropLeadingNL r else c :: r

/-- The scan for the end of the current line from `lbegin + 1`
(csv_parser.h:136): stop at the first `\n` or `\r`, or at `end`. -/
def lineEndFrom : List Char → List Char
  | [] => []
  | c :: r => if c = '\n' ∨ c = '\r' then c :: r else lineEndFrom r

/-- `lend = lbegin + 1` followed by the line-end scan
(csv_parser.h:135-136).  The `[]` case corresponds to `lbegin = end`,
where C would form the pointer `end + 1`; it is modelled as `end`
(reachable only when the whole block is a byte-order mark). -/
def findLineEnd : List Char → List Char
  | [] => []
  | _ :: r => lineEndFrom r

/-- The field-delimiter scan `while (*p != delim && p != lend) ++p;`
(csv_parser.h:177).  The byte at the cursor is read before the cursor
is tested against `lend`; when the cursor is `end` (the suffix `[]`)
that read is one past the block, recorded in the returned flag. -/
def scanDelim (delim : Char) (lend : List Char) : List Char → List Char × Bool
  | [] => ([], true)
  | c :: r =>
    if c = delim then (c :: r, false)
    else if (c :: r).length = lend.length then (c :: r, false)
    else scanDelim delim lend r

/-- The newline-run skip after a line
`while ((*lend == '\n' || *lend == '\r') && lend != end) ++lend;`
(csv_parser.h:186).  The byte at the cursor is read before the cursor
is tested against `end`; whenever the run reaches `end` (the suffix
`[]`) that read is one past the block, recorded in the returned flag. -/
def skipNewlines : List Char → List Char × Bool
  | [] => ([], true)
  | c :: r =>
    if c = '\n' ∨ c = '\r' then skipNewlines r else (c :: r, false)

/-! ## The block parser. -/

/-- Classify the current column and route the parsed value
(csv_parser.h:161-174): a label column stores into the row's label-slot
vector; the weight column (only under the `real_t` representation)
stores the row weight; a feature column appends `(idx, v)` to
`index`/`value` when at least one character was consumed and in every
case advances the feature-index counter. -/
structure AppRes where
  lab : List RVal
  w : RVal
  idx : Nat
  st : PSt
deriving DecidableEq

/-- One column's classification and routing (csv_parser.h:161-174). -/
def applyField (cfg : Config) (col : Nat) (v : RVal) (consumed : Nat)
    (lab : List RVal) (w : RVal) (idx : Nat) (st : PSt) : AppRes :=
  match cfg.labelMap.lookup col with
  | some slot => ⟨lab.set slot v, w, idx, st⟩
  | none =>
    if cfg.dtype = DTy.f32 ∧ (col : Int) = cfg.weightColumn then
      ⟨lab, v, idx, st⟩
    else if consumed ≠ 0 then
      ⟨lab, w, idx + 1,
        ⟨{ st.out with
            value := st.out.value ++ [v],
            index := st.out.index ++ [idx] }, st.oob⟩⟩
    else ⟨lab, w, idx + 1, st⟩

/-- The pointer clamp `p = (endptr >= lend) ? lend : endptr`
(csv_parser.h:175): `endptr` is `p + n` for `n` consumed characters,
and a cursor comparison is a suffix-length comparison. -/
def clampToLend (lend p : List Char) (n : Nat) : List Char :=
  if p.length - n ≤ lend.length then lend else p.drop n

/-- Result of the per-line field loop: the row's label-slot vector, the
row's weight, the parser state, and whether `LOG(FATAL)` fired. -/
structure FieldRes where
  lab : List RVal
  w : RVal
  st : PSt
  fatal : Bool
deriving DecidableEq

/-- The field loop `while (p != lend)` of csv_parser.h:144-184: parse
the number at `p`, classify the column, clamp `endptr` to `lend`, scan
for the delimiter, fail fatally when the scan reached `lend` with the
feature-index counter still `0`, otherwise step past the delimiter.
The fuel argument only makes the recursion structural: every iteration
either returns or strictly shortens `p`, so fuel `p.length + 1` (used
by `lineLoop`) never runs out. -/
def fieldLoop (cfg : Config) (lend : List Char) :
    Nat → List Char → Nat → Nat → List RVal → RVal → PSt → FieldRes
  | 0, _, _, _, lab, w, st => ⟨lab, w, st, true⟩
  | fuel + 1, p, col, idx, lab, w, st =>
    if p.length = lend.length then ⟨lab, w, st, false⟩
    else
      let pr := parseNum cfg.dtype p
      let ar := applyField cfg col pr.1 pr.2 lab w idx st
      let sd := scanDelim cfg.delim lend (clampToLend lend p pr.2)
      let st2 : PSt := ⟨ar.st.out, ar.st.oob || sd.2⟩
      if sd.1.length = lend.length then
        if ar.idx = 0 then ⟨ar.lab, ar.w, st2, true⟩
        else ⟨ar.lab, ar.w, st2, false⟩
      else fieldLoop cfg lend fuel sd.1.tail (col + 1) ar.idx ar.lab ar.w st2

/-- Close the current row (csv_parser.h:189-193): append the row's
label-slot vector to `label`, append the row weight when it is not NaN,
and push `index.size()` onto `offset`. -/
def closeRow (lab : List RVal) (w : RVal) (out : RowBlock) : RowBlock :=
  { out with
      label := out.label ++ lab,
      weight := out.weight ++ (if w.isNan then [] else [w]),
      offset := out.offset ++ [out.index.length] }

/-- Result of the line loop: the final parser state and whether a
fatal condition fired. -/
structure LineRes where
  st : PSt
  fatal : Bool
deriving DecidableEq

/-- One iteration of the line loop (csv_parser.h:132-194): skip the
byte-order mark when this is the first line, compute the line end,
zero-fill the label-slot vector, initialise the row weight to quiet
NaN, run the field loop, skip the trailing newline run, and close the
row.  `Sum.inr st` is a `LOG(FATAL)` with the state at the abort;
`Sum.inl (next, st)` carries the start of the next line. -/
def lineStep (cfg : Config) (first : Bool) (lbegin : List Char) (st : PSt) :
    (List Char × PSt) ⊕ PSt :=
  let lb := if first then stripBOM lbegin else lbegin
  let lend := findLineEnd lb
  let fr := fieldLoop cfg lend (lb.length + 1) lb 0 0
    (List.replicate cfg.labelCount (RVal.num 0 0)) RVal.nan st
  if fr.fatal then Sum.inr fr.st
  else
    let sn := skipNewlines lend
    Sum.inl (sn.1, ⟨closeRow fr.lab fr.w fr.st.out, fr.st.oob || sn.2⟩)

/-- The line loop `while (lbegin != end)` of csv_parser.h:132-194: run
`lineStep` per line, with the byte-order-mark skip enabled on the first
iteration only.  The fuel argument only makes the recursion structural:
every iteration strictly shortens the remaining input, so fuel
`data.length + 1` never runs out. -/
def lineLoop (cfg : Config) : Nat → Bool → List Char → PSt → LineRes
  | 0, _, _, st => ⟨st, true⟩
  | fuel + 1, first, lbegin, st =>
    if lbegin.isEmpty then ⟨st, false⟩
    else
      match lineStep cfg first lbegin st with
      | Sum.inr st2 => ⟨st2, true⟩
      | Sum.inl next => lineLoop cfg fuel false next.1 next.2

/-- `CSVParser::ParseBlock` (csv_parser.h:120-199).  The fresh output
container starts with `offset = [0]` (modelled from the spec:
`RowBlockContainer::Clear` lives in row_block.h, not part of the
sources here; per the spec `offset[0] = 0` is the implicit leading
boundary) and `label_count` copied from the configuration.  After the
line loop the four `CHECK`s of csv_parser.h:195-198 run; a failed check
or an earlier `LOG(FATAL)` yields `none`.  The second component records
whether any byte at or past `end` was read. -/
def ParseBlock (cfg : Config) (data : List Char) : Option RowBlock × Bool :=
  let st0 : PSt := ⟨⟨[], [], [0], [], [], cfg.labelCount⟩, false⟩
  let lr := lineLoop cfg (data.length + 1) true (dropLeadingNL data) st0
  if lr.fatal then (none, lr.st.oob)
  else
    let o := lr.st.out
    if 0 < o.label_count ∧ o.label.length % o.label_count = 0 ∧
        o.label.length / o.label_count + 1 = o.offset.length ∧
        (o.weight.length = 0 ∨ o.weight.length + 1 = o.offset.length)
    then (some o, lr.st.oob) else (none, lr.st.oob)

/-! ## Column-role map construction. -/

/-- Model of `std::stoi` as called at csv_parser.h:54: `strtol` in base
10 (optional whitespace, optional sign, decimal digits) followed by the
`int`-range check; `none` models a thrown `std::invalid_argument` (no
digits) or `std::out_of_range` (value outside `int`).  On success it
returns the value and the index of the first unconverted character. -/
def stoi (s : List Char) : Option (Int × Nat) :=
  let wn := (s.takeWhile isWS).length
  let s1 := s.drop wn
  let sgn : Bool × Nat :=
    match s1 with
    | '-' :: _ => (true, 1)
    | '+' :: _ => (false, 1)
    | _ => (false, 0)
  let d := readDigits (s1.drop sgn.2) 0 0
  if d.2.1 = 0 then none
  else
    let v : Int := if sgn.1 then -(d.1 : Int) else (d.1 : Int)
    if v < -(2 ^ 31) ∨ (2 ^ 31 - 1 : Int) < v then none
    else some (v, wn + sgn.2 + d.2.1)

/-- The `std::getline`-on-`','` split of the `label_column` string
(csv_parser.h:47-49): each piece runs to the next comma or to the end;
`getline` fails when the stream is already at end-of-file, so a final
empty piece after a trailing comma is not produced. -/
def splitGetline : List Char → List (List Char)
  | [] => []
  | c :: r =>
    if c = ',' then [] :: splitGetline r
    else
      match splitGetline r with
      | [] => [[c]]
      | p :: ps => (c :: p) :: ps

/-- The entry-processing loop of `ExtractLabelColumnIndices`
(csv_parser.h:49-81): empty entries, entries whose first character is
not a digit or sign, partially numeric entries, negative entries and
duplicate raw indices are skipped (each with a `LOG(WARNING)`); a
surviving entry is appended to the map with the next output slot.
`none` models the uncaught exception thrown by `std::stoi` on an entry
that passed the first-character test but has no parsable integer (or
overflows `int`). -/
def processEntries : List (List Char) → List (Nat × Nat) → Nat → Option (List (Nat × Nat) × Nat)
  | [], m, oi => some (m, oi)
  | e :: rest, m, oi =>
    if e.isEmpty then processEntries rest m oi
    else
      let front := e.headD ' '
      if isDigitC front ∨ front = '-' ∨ front = '+' then
        match stoi e with
        | none => none
        | some vn =>
          if vn.2 = e.length then
            if 0 ≤ vn.1 then
              if (m.lookup vn.1.toNat).isSome then processEntries rest m oi
              else processEntries rest (m ++ [(vn.1.toNat, oi)]) (oi + 1)
            else processEntries rest m oi
          else processEntries rest m oi
      else processEntries rest m oi

/-- `CSVParserParam::ExtractLabelColumnIndices` (csv_parser.h:44-85):
build the label-column map from the comma-separated `label_column`
string and set `label_count` to the map's size, or to `1` when the map
has at most one entry.  `none` models an uncaught `std::stoi`
exception aborting construction. -/
def ExtractLabelColumnIndices (label_column : List Char) : Option (List (Nat × Nat) × Nat) :=
  if label_column.length > 0 then
    match processEntries (splitGetline label_column) [] 0 with
    | none => none
    | some r => some (r.1, if r.1.length > 1 then r.1.length else 1)
  else some ([], 1)

/-! ## Concrete configurations used in the concrete theorems. -/

/-- The default configuration: no label columns, `weight_column = -1`,
delimiter `","`, `real_t` values, `label_count = 1`. -/
def defaultCfg : Config := ⟨[], -1, ',', DTy.f32, 1⟩

/-- The configuration from `label_column = "0,1"`: raw columns 0 and 1
are label slots 0 and 1, no weight column, `real_t` values,
`label_count = 2`. -/
def twoLabelCfg : Config := ⟨[(0, 0), (1, 1)], -1, ',', DTy.f32, 2⟩

/-- The configuration from `label_column = "0"`: raw column 0 is label
slot 0, no weight column, `real_t` values. -/
def oneLabelCfg : Config := ⟨[(0, 0)], -1, ',', DTy.f32, 1⟩

/-- The configuration with `weight_column = 1` under the `real_t`
representation. -/
def weightCfg : Config := ⟨[], 1, ',', DTy.f32, 1⟩

/-- The configuration with `weight_column = 1` under the `int32_t`
representation. -/
def int32WeightCfg : Config := ⟨[], 1, ',', DTy.i32, 1⟩

/-! ## Length and scanning lemmas. -/

theorem lineEndFrom_length_le (s : List Char) : (lineEndFrom s).length ≤ s.length := by
  induction s with
  | nil => simp [lineEndFrom]
  | cons c r ih =>
    simp only [lineEndFrom]
    split
    · exact Nat.le_refl _
    · exact Nat.le_trans ih (by simp)

theorem findLineEnd_length_lt (s : List Char) (h : s ≠ []) :
    (findLineEnd s).length < s.length := by
  match s, h with
  | c :: r, _ =>
    simpa [findLineEnd] using Nat.lt_succ_of_le (lineEndFrom_length_le r)

theorem skipNewlines_length_le (s : List Char) : (skipNewlines s).1.length ≤ s.length := by
  induction s with
  | nil => simp [skipNewlines]
  | cons c r ih =>
    simp only [skipNewlines]
    split
    · exact Nat.le_trans ih (by simp)
    · exact Nat.le_refl _

theorem scanDelim_length_le (d : Char) (lend s : List Char) :
    (scanDelim d lend s).1.length ≤ s.length := by
  induction s with
  | nil => simp [scanDelim]
  | cons c r ih =>
    simp only [scanDelim]
    split
    · exact Nat.le_refl _
    · split
      · exact Nat.le_refl _
      · exact Nat.le_trans ih (by simp)

theorem scanDelim_length_ge (d : Char) (lend s : List Char)
    (h : lend.length ≤ s.length) :
    lend.length ≤ (scanDelim d lend s).1.length := by
  induction s with
  | nil => simpa [scanDelim] using h
  | cons c r ih =>
    simp only [scanDelim]
    split
    · exact h
    · split
      · next h2 => exact Nat.le_of_eq h2.symm
      · next h2 =>
        apply ih
        simp only [List.length_cons] at h h2
        omega

theorem stripBOM_length_le (s : List Char) : (stripBOM s).length ≤ s.length := by
  unfold stripBOM
  split
  · simp
  · exact Nat.le_refl _

theorem stripBOM_bom_append (r : List Char) : stripBOM (bomChars ++ r) = r := by
  simp [stripBOM, bomChars]

theorem dropLeadingNL_cons_of_not_nl (c : Char) (r : List Char)
    (h : ¬(c = '\n' ∨ c = '\r')) : dropLeadingNL (c :: r) = c :: r := by
  simp [dropLeadingNL, h]

/-! ## Preservation lemmas for the field routing and the field loop. -/

theorem applyField_out_pres (cfg : Config) (col : Nat) (v : RVal) (n : Nat)
    (lab : List RVal) (w : RVal) (idx : Nat) (st : PSt) :
    (applyField cfg col v n lab w idx st).st.out.offset = st.out.offset ∧
    (applyField cfg col v n lab w idx st).st.out.label = st.out.label ∧
    (applyField cfg col v n lab w idx st).st.out.weight = st.out.weight ∧
    (applyField cfg col v n lab w idx st).st.out.label_count = st.out.label_count ∧
    (applyField cfg col v n lab w idx st).st.oob = st.oob := by
  unfold applyField
  cases cfg.labelMap.lookup col with
  | some slot => simp
  | none => split_ifs <;> simp

theorem applyField_idx_le (cfg : Config) (col : Nat) (v : RVal) (n : Nat)
    (lab : List RVal) (w : RVal) (idx : Nat) (st : PSt) :
    idx ≤ (applyField cfg col v n lab w idx st).idx := by
  unfold applyField
  cases cfg.labelMap.lookup col with
  | some slot => simp
  | none => split_ifs <;> simp

theorem applyField_iv (cfg : Config) (col : Nat) (v : RVal) (n : Nat)
    (lab : List RVal) (w : RVal) (idx : Nat) (st : PSt)
    (h : st.out.index.length = st.out.value.length) :
    (applyField cfg col v n lab w idx st).st.out.index.length =
      (applyField cfg col v n lab w idx st).st.out.value.length := by
  unfold applyField
  cases cfg.labelMap.lookup col with
  | some slot => simpa using h
  | none => split_ifs <;> simpa using h

theorem applyField_w_of_ne_f32 (cfg : Config) (col : Nat) (v : RVal) (n : Nat)
    (lab : List RVal) (w : RVal) (idx : Nat) (st : PSt)
    (h : cfg.dtype ≠ DTy.f32) :
    (applyField cfg col v n lab w idx st).w = w := by
  unfold applyField
  cases cfg.labelMap.lookup col with
  | some slot => simp
  | none =>
    rw [if_neg (by intro hc; exact h hc.1)]
    split_ifs <;> simp

/-- Routing of a label column (csv_parser.h:161-163). -/
theorem applyField_label (cfg : Config) (col : Nat) (v : RVal) (n : Nat)
    (lab : List RVal) (w : RVal) (idx : Nat) (st : PSt) (slot : Nat)
    (hl : cfg.labelMap.lookup col = some slot) :
    applyField cfg col v n lab w idx st = ⟨lab.set slot v, w, idx, st⟩ := by
  simp only [applyField, hl]

/-- Routing of the weight column (csv_parser.h:164-166). -/
theorem applyField_weight (cfg : Config) (col : Nat) (v : RVal) (n : Nat)
    (lab : List RVal) (w : RVal) (idx : Nat) (st : PSt)
    (hl : cfg.labelMap.lookup col = none)
    (hc : cfg.dtype = DTy.f32 ∧ (col : Int) = cfg.weightColumn) :
    applyField cfg col v n lab w idx st = ⟨lab, v, idx, st⟩ := by
  simp only [applyField, hl]
  rw [if_pos hc]

/-- Component behaviour of a feature column (csv_parser.h:167-174):
whether or not the field consumed characters, the label vector and the
weight are untouched and the feature-index counter advances by one. -/
theorem applyField_feature_parts (cfg : Config) (col : Nat) (v : RVal) (n : Nat)
    (lab : List RVal) (w : RVal) (idx : Nat) (st : PSt)
    (hl : cfg.labelMap.lookup col = none)
    (hc : ¬(cfg.dtype = DTy.f32 ∧ (col : Int) = cfg.weightColumn)) :
    (applyField cfg col v n lab w idx st).idx = idx + 1 ∧
    (applyField cfg col v n lab w idx st).lab = lab ∧
    (applyField cfg col v n lab w idx st).w = w := by
  simp only [applyField, hl]
  rw [if_neg hc]
  split_ifs <;> exact ⟨rfl, rfl, rfl⟩

/-- An empty feature field (zero characters consumed) appends nothing
and only advances the feature-index counter (csv_parser.h:171-173). -/
theorem applyField_feature_empty (cfg : Config) (col : Nat) (v : RVal)
    (lab : List RVal) (w : RVal) (idx : Nat) (st : PSt)
    (hl : cfg.labelMap.lookup col = none)
    (hc : ¬(cfg.dtype = DTy.f32 ∧ (col : Int) = cfg.weightColumn)) :
    applyField cfg col v 0 lab w idx st = ⟨lab, w, idx + 1, st⟩ := by
  simp only [applyField, hl]
  rw [if_neg hc]
  simp

theorem lineEndFrom_nil_of_no_nl (s : List Char)
    (h : ∀ x ∈ s, x ≠ '\n' ∧ x ≠ '\r') : lineEndFrom s = [] := by
  induction s with
  | nil => rfl
  | cons c r ih =>
    simp only [lineEndFrom]
    rw [if_neg (by have := h c (by simp); tauto)]
    exact ih (fun x hx => h x (by simp [hx]))

theorem scanDelim_nil_of_no_delim (d : Char) (s : List Char)
    (h : ∀ x ∈ s, x ≠ d) : scanDelim d [] s = ([], true) := by
  induction s with
  | nil => rfl
  | cons c r ih =>
    simp only [scanDelim]
    rw [if_neg (h c (by simp)), if_neg (by simp)]
    exact ih (fun x hx => h x (by simp [hx]))

theorem fieldLoop_out_pres (cfg : Config) (lend : List Char) :
    ∀ fuel p col idx lab w st,
      (fieldLoop cfg lend fuel p col idx lab w st).st.out.offset = st.out.offset ∧
      (fieldLoop cfg lend fuel p col idx lab w st).st.out.label = st.out.label ∧
      (fieldLoop cfg lend fuel p col idx lab w st).st.out.weight = st.out.weight ∧
      (fieldLoop cfg lend fuel p col idx lab w st).st.out.label_count =
        st.out.label_count := by
  intro fuel
  induction fuel with
  | zero => intro p col idx lab w st; simp [fieldLoop]
  | succ m ih =>
    intro p col idx lab w st
    obtain ⟨h1, h2, h3, h4, _⟩ :=
      applyField_out_pres cfg col (parseNum cfg.dtype p).1 (parseNum cfg.dtype p).2
        lab w idx st
    simp only [fieldLoop]
    split
    · exact ⟨rfl, rfl, rfl, rfl⟩
    · split
      · split
        · exact ⟨h1, h2, h3, h4⟩
        · exact ⟨h1, h2, h3, h4⟩
      · obtain ⟨g1, g2, g3, g4⟩ := ih _ _ _ _ _
          ⟨(applyField cfg col (parseNum cfg.dtype p).1 (parseNum cfg.dtype p).2
              lab w idx st).st.out,
            (applyField cfg col (parseNum cfg.dtype p).1 (parseNum cfg.dtype p).2
              lab w idx st).st.oob ||
              (scanDelim cfg.delim lend
                (clampToLend lend p (parseNum cfg.dtype p).2)).2⟩
        exact ⟨g1.trans h1, g2.trans h2, g3.trans h3, g4.trans h4⟩

theorem fieldLoop_iv (cfg : Config) (lend : List Char) :
    ∀ fuel p col idx lab w st,
      st.out.index.length = st.out.value.length →
      (fieldLoop cfg lend fuel p col idx lab w st).st.out.index.length =
        (fieldLoop cfg lend fuel p col idx lab w st).st.out.value.length := by
  intro fuel
  induction fuel with
  | zero => intro p col idx lab w st h; simpa [fieldLoop] using h
  | succ m ih =>
    intro p col idx lab w st h
    have hap := applyField_iv cfg col (parseNum cfg.dtype p).1 (parseNum cfg.dtype p).2
      lab w idx st h
    simp only [fieldLoop]
    split
    · exact h
    · split
      · split
        · exact hap
        · exact hap
      · exact ih _ _ _ _ _ _ hap

theorem clampToLend_length_le (lend p : List Char) (n : Nat)
    (h : lend.length ≤ p.length) : (clampToLend lend p n).length ≤ p.length := by
  unfold clampToLend
  split
  · exact h
  · simp

theorem clampToLend_length_ge (lend p : List Char) (n : Nat) :
    lend.length ≤ (clampToLend lend p n).length := by
  unfold clampToLend
  split
  · exact Nat.le_refl _
  · next h => simp only [List.length_drop]; omega

/-- Once the row's feature-index counter is positive, the field loop
can no longer fire the fatal delimiter check of csv_parser.h:178-182:
the counter never decreases, so the `idx == 0` conjunct stays false on
every later field of the line. -/
theorem fieldLoop_not_fatal (cfg : Config) (lend : List Char) :
    ∀ fuel p col idx lab w st, 0 < idx → lend.length ≤ p.length → p.length < fuel →
      (fieldLoop cfg lend fuel p col idx lab w st).fatal = false := by
  intro fuel
  induction fuel with
  | zero => intro p col idx lab w st _ _ hf; exact absurd hf (Nat.not_lt_zero _)
  | succ m ih =>
    intro p col idx lab w st hidx hlp hf
    have hidx2 : 0 <
        (applyField cfg col (parseNum cfg.dtype p).1 (parseNum cfg.dtype p).2
          lab w idx st).idx :=
      Nat.lt_of_lt_of_le hidx
        (applyField_idx_le cfg col (parseNum cfg.dtype p).1 (parseNum cfg.dtype p).2
          lab w idx st)
    simp only [fieldLoop]
    split
    · rfl
    · next hne =>
      split
      · split
        · next hz => omega
        · rfl
      · next hsd =>
        have hp1le : (clampToLend lend p (parseNum cfg.dtype p).2).length ≤ p.length :=
          clampToLend_length_le lend p (parseNum cfg.dtype p).2 hlp
        have hp1ge := clampToLend_length_ge lend p (parseNum cfg.dtype p).2
        have hsdle := scanDelim_length_le cfg.delim lend
          (clampToLend lend p (parseNum cfg.dtype p).2)
        have hsdge := scanDelim_length_ge cfg.delim lend
          (clampToLend lend p (parseNum cfg.dtype p).2) hp1ge
        have htl := List.length_tail
          (scanDelim cfg.delim lend (clampToLend lend p (parseNum cfg.dtype p).2)).1
        apply ih
        · exact hidx2
        · omega
        · omega

theorem fieldLoop_w_of_ne_f32 (cfg : Config) (lend : List Char)
    (hd : cfg.dtype ≠ DTy.f32) :
    ∀ fuel p col idx lab w st,
      (fieldLoop cfg lend fuel p col idx lab w st).w = w := by
  intro fuel
  induction fuel with
  | zero => intro p col idx lab w st; simp [fieldLoop]
  | succ m ih =>
    intro p col idx lab w st
    have hap := applyField_w_of_ne_f32 cfg col (parseNum cfg.dtype p).1
      (parseNum cfg.dtype p).2 lab w idx st hd
    simp only [fieldLoop]
    split
    · rfl
    · split
      · split
        · exact hap
        · exact hap
      · exact (ih _ _ _ _ _ _).trans hap

/-! ## Row closing and line-level lemmas. -/

theorem closeRow_index (lab : List RVal) (w : RVal) (out : RowBlock) :
    (closeRow lab w out).index = out.index := rfl

theorem closeRow_value (lab : List RVal) (w : RVal) (out : RowBlock) :
    (closeRow lab w out).value = out.value := rfl

theorem closeRow_weight (lab : List RVal) (w : RVal) (out : RowBlock) :
    (closeRow lab w out).weight = out.weight ++ (if w.isNan then [] else [w]) := rfl

theorem closeRow_offset (lab : List RVal) (w : RVal) (out : RowBlock) :
    (closeRow lab w out).offset = out.offset ++ [out.index.length] := rfl

theorem closeRow_label (lab : List RVal) (w : RVal) (out : RowBlock) :
    (closeRow lab w out).label = out.label ++ lab := rfl

theorem closeRow_label_count (lab : List RVal) (w : RVal) (out : RowBlock) :
    (closeRow lab w out).label_count = out.label_count := rfl

theorem nextStart_length_lt (lb : List Char) (n : Nat) (hle : lb.length ≤ n)
    (hpos : 0 < n) : (skipNewlines (findLineEnd lb)).1.length < n := by
  cases lb with
  | nil => simpa [findLineEnd, skipNewlines] using hpos
  | cons c r =>
    have h1 := skipNewlines_length_le (findLineEnd (c :: r))
    have h2 := findLineEnd_length_lt (c :: r) (by simp)
    omega

/-- A non-fatal `lineStep` strictly advances the cursor. -/
theorem lineStep_next_lt (cfg : Config) (first : Bool) (lbegin : List Char) (st : PSt)
    (next : List Char × PSt) (h : lineStep cfg first lbegin st = Sum.inl next)
    (hne : lbegin ≠ []) : next.1.length < lbegin.length := by
  simp only [lineStep] at h
  set lb := if first then stripBOM lbegin else lbegin with hlbdef
  split at h
  · cases h
  · have hh := Sum.inl.inj h
    have hlb : lb.length ≤ lbegin.length := by
      rw [hlbdef]
      split
      · exact stripBOM_length_le lbegin
      · exact Nat.le_refl _
    have hlt := nextStart_length_lt lb lbegin.length hlb (List.length_pos.mpr hne)
    subst hh
    exact hlt

/-- A non-fatal `lineStep` preserves the equality of the `index` and
`value` lengths. -/
theorem lineStep_inl_iv (cfg : Config) (first : Bool) (s : List Char) (st : PSt)
    (next : List Char × PSt) (heq : lineStep cfg first s st = Sum.inl next)
    (h : st.out.index.length = st.out.value.length) :
    next.2.out.index.length = next.2.out.value.length := by
  simp only [lineStep] at heq
  set lb := if first then stripBOM s else s with hlbdef
  split at heq
  · cases heq
  · have hh := Sum.inl.inj heq
    subst hh
    have := fieldLoop_iv cfg (findLineEnd lb) (lb.length + 1) lb
      0 0 (List.replicate cfg.labelCount (RVal.num 0 0)) RVal.nan st h
    simpa [closeRow_index, closeRow_value] using this

/-- A fatal `lineStep` preserves the equality of the `index` and
`value` lengths. -/
theorem lineStep_inr_iv (cfg : Config) (first : Bool) (s : List Char) (st : PSt)
    (st2 : PSt) (heq : lineStep cfg first s st = Sum.inr st2)
    (h : st.out.index.length = st.out.value.length) :
    st2.out.index.length = st2.out.value.length := by
  simp only [lineStep] at heq
  set lb := if first then stripBOM s else s with hlbdef
  split at heq
  · have hh := Sum.inr.inj heq
    subst hh
    exact fieldLoop_iv cfg (findLineEnd lb) (lb.length + 1) lb
      0 0 (List.replicate cfg.labelCount (RVal.num 0 0)) RVal.nan st h
  · cases heq

/-- The line loop preserves the equality of the `index` and `value`
lengths (each feature append pushes one entry to both). -/
theorem lineLoop_iv (cfg : Config) :
    ∀ fuel first s st, st.out.index.length = st.out.value.length →
      (lineLoop cfg fuel first s st).st.out.index.length =
        (lineLoop cfg fuel first s st).st.out.value.length := by
  intro fuel
  induction fuel with
  | zero => intro first s st h; simpa [lineLoop] using h
  | succ m ih =>
    intro first s st h
    simp only [lineLoop]
    split
    · exact h
    · split
      · next st2 heq => exact lineStep_inr_iv cfg first s st st2 heq h
      · next nx heq => exact ih false nx.1 nx.2 (lineStep_inl_iv cfg first s st nx heq h)

/-- Under an integer representation a `lineStep` leaves the weight
sequence unchanged: the row weight stays NaN, so `closeRow` appends
nothing. -/
theorem lineStep_inl_weight (cfg : Config) (first : Bool) (s : List Char) (st : PSt)
    (next : List Char × PSt) (heq : lineStep cfg first s st = Sum.inl next)
    (hd : cfg.dtype ≠ DTy.f32) : next.2.out.weight = st.out.weight := by
  simp only [lineStep] at heq
  set lb := if first then stripBOM s else s with hlbdef
  split at heq
  · cases heq
  · have hh := Sum.inl.inj heq
    subst hh
    have hw := fieldLoop_w_of_ne_f32 cfg (findLineEnd lb) hd
      (lb.length + 1) lb 0 0 (List.replicate cfg.labelCount (RVal.num 0 0)) RVal.nan st
    have hp := (fieldLoop_out_pres cfg (findLineEnd lb)
      (lb.length + 1) lb 0 0 (List.replicate cfg.labelCount (RVal.num 0 0)) RVal.nan st).2.2.1
    simp [closeRow_weight, hw, RVal.isNan, hp]

/-- Under an integer representation a fatal `lineStep` leaves the
weight sequence unchanged. -/
theorem lineStep_inr_weight (cfg : Config) (first : Bool) (s : List Char) (st : PSt)
    (st2 : PSt) (heq : lineStep cfg first s st = Sum.inr st2) :
    st2.out.weight = st.out.weight := by
  simp only [lineStep] at heq
  set lb := if first then stripBOM s else s with hlbdef
  split at heq
  · have hh := Sum.inr.inj heq
    subst hh
    exact (fieldLoop_out_pres cfg (findLineEnd lb)
      (lb.length + 1) lb 0 0 (List.replicate cfg.labelCount (RVal.num 0 0)) RVal.nan st).2.2.1
  · cases heq

/-- Under an integer representation the line loop never grows the
weight sequence. -/
theorem lineLoop_weight (cfg : Config) (hd : cfg.dtype ≠ DTy.f32) :
    ∀ fuel first s st,
      (lineLoop cfg fuel first s st).st.out.weight = st.out.weight := by
  intro fuel
  induction fuel with
  | zero => intro first s st; simp [lineLoop]
  | succ m ih =>
    intro first s st
    simp only [lineLoop]
    split
    · rfl
    · split
      · next st2 heq => exact lineStep_inr_weight cfg first s st st2 heq
      · next nx heq =>
        exact (ih false nx.1 nx.2).trans (lineStep_inl_weight cfg first s st nx heq hd)

/-- The line loop does not depend on the exact fuel value as long as
the fuel exceeds the length of the remaining input. -/
theorem lineLoop_fuel_irrel (cfg : Config) :
    ∀ f1 f2 first s st, s.length < f1 → s.length < f2 →
      lineLoop cfg f1 first s st = lineLoop cfg f2 first s st := by
  intro f1
  induction f1 with
  | zero => intro f2 first s st h1 _; exact absurd h1 (Nat.not_lt_zero _)
  | succ n ih =>
    intro f2 first s st h1 h2
    cases f2 with
    | zero => exact absurd h2 (Nat.not_lt_zero _)
    | succ m =>
      simp only [lineLoop]
      split
      · rfl
      · next hs =>
        split
        · rfl
        · next nx heq =>
          have hne : s ≠ [] := by
            intro e
            rw [e] at hs
            exact hs rfl
          have hlt := lineStep_next_lt cfg first s st nx heq hne
          exact ih m false nx.1 nx.2 (by omega) (by omega)

/-! ## Supporting lemmas for the `ParseBlock`-level claims. -/

/-- Under an integer representation the configured weight column is
irrelevant to field routing: `applyField` behaves exactly as with no
weight column configured (`weight_column = -1`), because the match at
csv_parser.h:164 requires `DType` to be `real_t`. -/
theorem applyField_wc_irrel (cfg : Config) (hne : cfg.dtype ≠ DTy.f32)
    (col : Nat) (v : RVal) (n : Nat) (lab : List RVal) (w : RVal) (idx : Nat)
    (st : PSt) :
    applyField cfg col v n lab w idx st =
      applyField { cfg with weightColumn := -1 } col v n lab w idx st := by
  have hm : ({ cfg with weightColumn := -1 } : Config).labelMap = cfg.labelMap := rfl
  simp only [applyField, hm]
  cases cfg.labelMap.lookup col with
  | some slot => rfl
  | none =>
    rw [if_neg (show ¬(cfg.dtype = DTy.f32 ∧ (col : Int) = cfg.weightColumn) from
          fun hc => hne hc.1),
        if_neg (show ¬(cfg.dtype = DTy.f32 ∧ (col : Int) = -1) from
          fun hc => hne hc.1)]

/-! ## The claims. -/

/-- C1, counterexample: the claim says a line with no delimiter
character anywhere fails fatally regardless of how its single field is
classified.  On the block `"123\n"` under the default configuration
(column 0 is a feature column) no delimiter occurs, yet `ParseBlock`
succeeds and returns a populated row block: the feature branch
increments the feature-index counter before the check at
csv_parser.h:178 runs, so `idx == 0` is already false. -/
theorem claim_C1_counterexample :
    ',' ∉ "123\n".toList ∧
    (ParseBlock defaultCfg "123\n".toList).fst =
      some ⟨[0], [RVal.num 123 0], [0, 1], [RVal.num 0 0], [], 1⟩ :=
  ⟨by decide, by decide⟩

/-- C2, counterexample: the claim says that once a delimiter has been
found on an earlier field of the line the fatal delimiter-missing
check cannot fire again.  With label columns `0` and `1` the line
`"1,2"` has (and the scan finds) a delimiter after field 0, yet the
scan at field 1 reaches the line end with the feature-index counter
still `0` — both fields are label columns — and csv_parser.h:178-182
aborts the parse. -/
theorem claim_C2_counterexample :
    ',' ∈ "1,2\n".toList ∧ (ParseBlock twoLabelCfg "1,2\n".toList).fst = none :=
  ⟨by decide, by decide⟩

/-- C2, amended: the fatal delimiter-missing check is guarded by the
row's feature-index counter, not by whether a delimiter was found
earlier: once the counter is positive (which happens exactly when some
earlier field was a feature column), the check cannot fire on any
later field of the line; when all earlier fields were label or weight
columns it can fire even though delimiters were found. -/
theorem claim_C2_amended (cfg : Config) (lend : List Char) (fuel : Nat)
    (p : List Char) (col idx : Nat) (lab : List RVal) (w : RVal) (st : PSt)
    (hidx : 0 < idx) (hlp : lend.length ≤ p.length) (hfuel : p.length < fuel) :
    (fieldLoop cfg lend fuel p col idx lab w st).fatal = false :=
  fieldLoop_not_fatal cfg lend fuel p col idx lab w st hidx hlp hfuel

/-- Witness for the amended C2 at a concrete input. -/
theorem claim_C2_amended_witness :
    0 < 1 ∧ ([] : List Char).length ≤ "9".toList.length ∧ "9".toList.length < 2 ∧
    (fieldLoop defaultCfg [] 2 "9".toList 1 1 [RVal.num 0 0] RVal.nan
      ⟨⟨[], [], [0], [], [], 1⟩, false⟩).fatal = false :=
  ⟨by decide, by decide, by decide,
    claim_C2_amended defaultCfg [] 2 "9".toList 1 1 [RVal.num 0 0] RVal.nan
      ⟨⟨[], [], [0], [], [], 1⟩, false⟩ (by decide) (by decide) (by decide)⟩

/-- C4, code bug: the claim (and the warning pattern of
csv_parser.h:60-80) says an individual bad `label_column` entry never
aborts construction, but an entry whose first character is `+` or `-`
passes the guard at csv_parser.h:52 and then makes `std::stoi` throw
an uncaught `std::invalid_argument` at csv_parser.h:54: on the list
`"+a"` the modelled construction aborts (`none`) instead of skipping
the entry. -/
theorem claim_C4_stoi_throws : ExtractLabelColumnIndices "+a".toList = none := by
  decide

/-- C6: `label_column = "2,0,2,-1,abc,0"` accepts exactly raw column 2
at output slot 0 and raw column 0 at output slot 1, in that acceptance
order, skipping the duplicate `2`, the negative `-1`, the non-numeric
`abc` and the duplicate `0`, and sets `label_count = 2`. -/
theorem claim_C6_extraction :
    ExtractLabelColumnIndices "2,0,2,-1,abc,0".toList = some ([(2, 0), (0, 1)], 2) := by
  decide

/-- C7: an empty feature field (zero characters consumed by the
numeric parse) appends nothing to `index`/`value` but still advances
the row's feature-index counter; concretely, the block `"1,,3\n"`
under the default configuration parses to `value = [1, 3]`,
`index = [0, 2]` and a single row of two stored features
(`offset = [0, 2]`). -/
theorem claim_C7_empty_field (cfg : Config) (col : Nat) (v : RVal)
    (lab : List RVal) (w : RVal) (idx : Nat) (st : PSt)
    (hl : cfg.labelMap.lookup col = none)
    (hc : ¬(cfg.dtype = DTy.f32 ∧ (col : Int) = cfg.weightColumn)) :
    applyField cfg col v 0 lab w idx st = ⟨lab, w, idx + 1, st⟩ ∧
    ParseBlock defaultCfg "1,,3\n".toList =
      (some ⟨[0, 2], [RVal.num 1 0, RVal.num 3 0], [0, 2], [RVal.num 0 0], [], 1⟩,
        true) :=
  ⟨applyField_feature_empty cfg col v lab w idx st hl hc, by decide⟩

/-- Witness for C7 at a concrete input. -/
theorem claim_C7_witness :
    defaultCfg.labelMap.lookup 0 = none ∧
    ¬(defaultCfg.dtype = DTy.f32 ∧ ((0 : Nat) : Int) = defaultCfg.weightColumn) ∧
    applyField defaultCfg 0 (RVal.num 5 0) 0 [RVal.num 0 0] RVal.nan 0
        ⟨⟨[], [], [0], [], [], 1⟩, false⟩ =
      ⟨[RVal.num 0 0], RVal.nan, 1, ⟨⟨[], [], [0], [], [], 1⟩, false⟩⟩ :=
  ⟨by decide, by decide,
    (claim_C7_empty_field defaultCfg 0 (RVal.num 5 0) [RVal.num 0 0] RVal.nan 0
      ⟨⟨[], [], [0], [], [], 1⟩, false⟩ (by decide) (by decide)).1⟩

/-- C8: under the `int32_t` or `int64_t` representation a configured
weight column is never matched (csv_parser.h:164 requires `real_t`):
any successfully parsed block has an empty weight sequence, and field
routing coincides with the routing of a configuration with no weight
column at all, so the weight column is processed as a feature
column. -/
theorem claim_C8_int_weight_never (cfg : Config) (data : List Char) (rb : RowBlock)
    (b : Bool) (hd : cfg.dtype = DTy.i32 ∨ cfg.dtype = DTy.i64)
    (h : ParseBlock cfg data = (some rb, b)) :
    rb.weight = [] ∧
    ∀ col v n lab w idx st,
      applyField cfg col v n lab w idx st =
        applyField { cfg with weightColumn := -1 } col v n lab w idx st := by
  have hne : cfg.dtype ≠ DTy.f32 := by
    rcases hd with h1 | h1 <;> rw [h1] <;> intro h2 <;> cases h2
  constructor
  · have hw := lineLoop_weight cfg hne (data.length + 1) true (dropLeadingNL data)
      ⟨⟨[], [], [0], [], [], cfg.labelCount⟩, false⟩
    simp only [ParseBlock] at h
    split at h
    · simp at h
    · split at h
      · have : rb = (lineLoop cfg (data.length + 1) true (dropLeadingNL data)
            ⟨⟨[], [], [0], [], [], cfg.labelCount⟩, false⟩).st.out := by
          have := congrArg Prod.fst h
          simpa using this.symm
        rw [this, hw]
      · simp at h
  · intro col v n lab w idx st
    exact applyField_wc_irrel cfg hne col v n lab w idx st

/-- Witness for C8 at a concrete input. -/
theorem claim_C8_witness :
    ParseBlock int32WeightCfg "1,2\n".toList =
      (some ⟨[0, 1], [RVal.num 1 0, RVal.num 2 0], [0, 2], [RVal.num 0 0], [], 1⟩,
        true) ∧
    (⟨[0, 1], [RVal.num 1 0, RVal.num 2 0], [0, 2], [RVal.num 0 0], [], 1⟩ :
      RowBlock).weight = [] := by
  refine ⟨by decide, ?_⟩
  exact (claim_C8_int_weight_never int32WeightCfg "1,2\n".toList
    ⟨[0, 1], [RVal.num 1 0, RVal.num 2 0], [0, 2], [RVal.num 0 0], [], 1⟩ true
    (Or.inl rfl) (by decide)).1

/-- C9, code bug: the delimiter scan of csv_parser.h:177 and the
newline-run skip of csv_parser.h:186 both dereference the cursor
before comparing it with `lend`/`end`, so a byte at position `end` is
read: on the block `"1\n"` the newline skip reads past the block, and
on `"1,2"` (final line without a trailing newline) the delimiter scan
does too; the claim that every read stays strictly below `end` fails
on essentially every block. -/
theorem claim_C9_oob_read :
    (ParseBlock defaultCfg "1\n".toList).snd = true ∧
    (ParseBlock defaultCfg "1,2".toList).snd = true :=
  ⟨by decide, by decide⟩

/-- C10: a row's weight is appended to the output weight sequence iff
the value parsed from the weight field is not NaN (csv_parser.h:190-192);
a NaN weight behaves exactly as an absent weight, so the block
`"1,nan\n2,3\n"` with `weight_column = 1` produces one weight for two
rows and the final length check of csv_parser.h:198 aborts the
parse. -/
theorem claim_C10_nan_weight :
    (∀ lab w out,
      ((closeRow lab w out).weight.length = out.weight.length + 1 ↔ w.isNan = false) ∧
      (w.isNan = true → (closeRow lab w out).weight = out.weight)) ∧
    ParseBlock weightCfg "1,nan\n2,3\n".toList = (none, true) := by
  constructor
  · intro lab w out
    constructor
    · rw [closeRow_weight]
      cases hw : w.isNan <;> simp
    · intro hw
      rw [closeRow_weight, hw]
      simp
  · decide

/-- Witness for C10 at a concrete input. -/
theorem claim_C10_witness :
    RVal.nan.isNan = true ∧
    (closeRow [] RVal.nan ⟨[], [], [0], [], [], 1⟩).weight =
      (⟨[], [], [0], [], [], 1⟩ : RowBlock).weight :=
  ⟨rfl, (claim_C10_nan_weight.1 [] RVal.nan ⟨[], [], [0], [], [], 1⟩).2 rfl⟩

/-- C3: whenever `ParseBlock` returns without a fatal failure, the
produced row block satisfies
`label.length = label_count * (offset.length - 1)`,
`weight.length ∈ {0, offset.length - 1}` and
`index.length = value.length`: the first two follow from the `CHECK`s
of csv_parser.h:195-198 (a violating block is never returned), the
third is a loop invariant (each stored feature pushes one entry to
both `index` and `value`). -/
theorem claim_C3_invariants (cfg : Config) (data : List Char) (rb : RowBlock)
    (h : (ParseBlock cfg data).fst = some rb) :
    rb.label.length = rb.label_count * (rb.offset.length - 1) ∧
    (rb.weight.length = 0 ∨ rb.weight.length = rb.offset.length - 1) ∧
    rb.index.length = rb.value.length := by
  have hiv := lineLoop_iv cfg (data.length + 1) true (dropLeadingNL data)
    ⟨⟨[], [], [0], [], [], cfg.labelCount⟩, false⟩ rfl
  simp only [ParseBlock] at h
  split at h
  · simp at h
  · split at h
    · next hchecks =>
      obtain ⟨hc1, hc2, hc3, hc4⟩ := hchecks
      simp only [Option.some.injEq] at h
      subst h
      refine ⟨?_, ?_, hiv⟩
      · have hdvd := Nat.dvd_of_mod_eq_zero hc2
        have he : (lineLoop cfg (data.length + 1) true (dropLeadingNL data)
              ⟨⟨[], [], [0], [], [], cfg.labelCount⟩, false⟩).st.out.offset.length - 1 =
            (lineLoop cfg (data.length + 1) true (dropLeadingNL data)
              ⟨⟨[], [], [0], [], [], cfg.labelCount⟩, false⟩).st.out.label.length /
            (lineLoop cfg (data.length + 1) true (dropLeadingNL data)
              ⟨⟨[], [], [0], [], [], cfg.labelCount⟩, false⟩).st.out.label_count := by
          rw [← hc3, Nat.add_sub_cancel]
        rw [he, Nat.mul_div_cancel' hdvd]
      · rcases hc4 with h4 | h4
        · exact Or.inl h4
        · exact Or.inr (by omega)
    · simp at h

/-- Witness for C3 at a concrete input. -/
theorem claim_C3_witness :
    (⟨[0, 1], [RVal.num 1 0, RVal.num 2 0], [0, 2], [RVal.num 0 0], [], 1⟩ :
        RowBlock).label.length =
      (⟨[0, 1], [RVal.num 1 0, RVal.num 2 0], [0, 2], [RVal.num 0 0], [], 1⟩ :
        RowBlock).label_count *
      ((⟨[0, 1], [RVal.num 1 0, RVal.num 2 0], [0, 2], [RVal.num 0 0], [], 1⟩ :
        RowBlock).offset.length - 1) ∧
    ((⟨[0, 1], [RVal.num 1 0, RVal.num 2 0], [0, 2], [RVal.num 0 0], [], 1⟩ :
        RowBlock).weight.length = 0 ∨
      (⟨[0, 1], [RVal.num 1 0, RVal.num 2 0], [0, 2], [RVal.num 0 0], [], 1⟩ :
        RowBlock).weight.length =
        (⟨[0, 1], [RVal.num 1 0, RVal.num 2 0], [0, 2], [RVal.num 0 0], [], 1⟩ :
          RowBlock).offset.length - 1) ∧
    (⟨[0, 1], [RVal.num 1 0, RVal.num 2 0], [0, 2], [RVal.num 0 0], [], 1⟩ :
        RowBlock).index.length =
      (⟨[0, 1], [RVal.num 1 0, RVal.num 2 0], [0, 2], [RVal.num 0 0], [], 1⟩ :
        RowBlock).value.length :=
  claim_C3_invariants defaultCfg "1,2\n".toList
    ⟨[0, 1], [RVal.num 1 0, RVal.num 2 0], [0, 2], [RVal.num 0 0], [], 1⟩ (by decide)

/-- `ParseBlock` yields no row block exactly when the line loop aborted
fatally or the final `CHECK`s of csv_parser.h:195-198 fail. -/
theorem parseBlock_none_iff (cfg : Config) (data : List Char) :
    (ParseBlock cfg data).fst = none ↔
      ((lineLoop cfg (data.length + 1) true (dropLeadingNL data)
          ⟨⟨[], [], [0], [], [], cfg.labelCount⟩, false⟩).fatal = true ∨
        ¬(0 < (lineLoop cfg (data.length + 1) true (dropLeadingNL data)
            ⟨⟨[], [], [0], [], [], cfg.labelCount⟩, false⟩).st.out.label_count ∧
          (lineLoop cfg (data.length + 1) true (dropLeadingNL data)
            ⟨⟨[], [], [0], [], [], cfg.labelCount⟩, false⟩).st.out.label.length %
            (lineLoop cfg (data.length + 1) true (dropLeadingNL data)
              ⟨⟨[], [], [0], [], [], cfg.labelCount⟩, false⟩).st.out.label_count = 0 ∧
          (lineLoop cfg (data.length + 1) true (dropLeadingNL data)
            ⟨⟨[], [], [0], [], [], cfg.labelCount⟩, false⟩).st.out.label.length /
            (lineLoop cfg (data.length + 1) true (dropLeadingNL data)
              ⟨⟨[], [], [0], [], [], cfg.labelCount⟩, false⟩).st.out.label_count + 1 =
            (lineLoop cfg (data.length + 1) true (dropLeadingNL data)
              ⟨⟨[], [], [0], [], [], cfg.labelCount⟩, false⟩).st.out.offset.length ∧
          ((lineLoop cfg (data.length + 1) true (dropLeadingNL data)
              ⟨⟨[], [], [0], [], [], cfg.labelCount⟩, false⟩).st.out.weight.length = 0 ∨
            (lineLoop cfg (data.length + 1) true (dropLeadingNL data)
              ⟨⟨[], [], [0], [], [], cfg.labelCount⟩, false⟩).st.out.weight.length + 1 =
            (lineLoop cfg (data.length + 1) true (dropLeadingNL data)
              ⟨⟨[], [], [0], [], [], cfg.labelCount⟩, false⟩).st.out.offset.length))) := by
  simp only [ParseBlock]
  split
  · next h => exact iff_of_true rfl (Or.inl h)
  · next h =>
    split
    · next hch =>
      apply iff_of_false
      · simp
      · rintro (hf | hnc)
        · exact h hf
        · exact hnc hch
    · next hch => exact iff_of_true rfl (Or.inr hch)

/-- C1, amended: for a single-line block whose line contains no
delimiter (and no newline bytes, and does not begin with a
byte-order mark), `ParseBlock` fails fatally if and only if column 0
is a label column or — under the float representation — the weight
column: only then is the feature-index counter still `0` when the
delimiter scan of the first field reaches the line end
(csv_parser.h:178); when column 0 is a feature column the counter is
already positive and the parse succeeds. -/
theorem claim_C1_amended (cfg : Config) (c : Char) (r : List Char)
    (hchars : ∀ x ∈ c :: r, x ≠ cfg.delim ∧ x ≠ '\n' ∧ x ≠ '\r')
    (hbom : stripBOM (c :: r) = c :: r)
    (hlc : 0 < cfg.labelCount) :
    ((ParseBlock cfg (c :: r)).fst = none ↔
      ((cfg.labelMap.lookup 0).isSome ∨
        cfg.dtype = DTy.f32 ∧ (0 : Int) = cfg.weightColumn)) := by
  have hcnl : ¬(c = '\n' ∨ c = '\r') := by
    have h1 := hchars c (List.mem_cons_self c r)
    rcases h1 with ⟨_, h2, h3⟩
    rintro (h | h)
    · exact h2 h
    · exact h3 h
  have hdrop : dropLeadingNL (c :: r) = c :: r := dropLeadingNL_cons_of_not_nl c r hcnl
  have hlend : findLineEnd (c :: r) = [] :=
    lineEndFrom_nil_of_no_nl r (fun x hx => (hchars x (List.mem_cons_of_mem c hx)).2)
  have hscan : ∀ n, scanDelim cfg.delim [] (clampToLend [] (c :: r) n) = ([], true) := by
    intro n
    apply scanDelim_nil_of_no_delim
    intro x hx
    unfold clampToLend at hx
    split at hx
    · cases hx
    · exact (hchars x (List.drop_subset n (c :: r) hx)).1
  rw [parseBlock_none_iff, hdrop]
  rcases hl : cfg.labelMap.lookup 0 with _ | slot
  · by_cases hwc : cfg.dtype = DTy.f32 ∧ (0 : Int) = cfg.weightColumn
    · -- column 0 is the weight column: the counter stays 0, fatal.
      have hfr : fieldLoop cfg [] (r.length + 1 + 1) (c :: r) 0 0
          (List.replicate cfg.labelCount (RVal.num 0 0)) RVal.nan
          ⟨⟨[], [], [0], [], [], cfg.labelCount⟩, false⟩ =
          ⟨List.replicate cfg.labelCount (RVal.num 0 0),
            (parseNum cfg.dtype (c :: r)).1,
            ⟨⟨[], [], [0], [], [], cfg.labelCount⟩, true⟩, true⟩ := by
        simp only [fieldLoop]
        rw [hscan, applyField_weight cfg 0 _ _ _ _ _ _ hl hwc]
        simp
      have hstep : lineStep cfg true (c :: r)
          ⟨⟨[], [], [0], [], [], cfg.labelCount⟩, false⟩ =
          Sum.inr ⟨⟨[], [], [0], [], [], cfg.labelCount⟩, true⟩ := by
        simp [lineStep, hbom, hlend, hfr]
      have hline : lineLoop cfg ((c :: r).length + 1) true (c :: r)
          ⟨⟨[], [], [0], [], [], cfg.labelCount⟩, false⟩ =
          ⟨⟨⟨[], [], [0], [], [], cfg.labelCount⟩, true⟩, true⟩ := by
        simp [lineLoop, hstep]
      rw [hline]
      simp [hl, hwc]
    · -- column 0 is a feature column: the counter becomes 1, success.
      obtain ⟨hidx, hlab, hw⟩ := applyField_feature_parts cfg 0
        (parseNum cfg.dtype (c :: r)).1 (parseNum cfg.dtype (c :: r)).2
        (List.replicate cfg.labelCount (RVal.num 0 0)) RVal.nan 0
        ⟨⟨[], [], [0], [], [], cfg.labelCount⟩, false⟩ hl hwc
      obtain ⟨hoff, hlab2, hwt, hlcnt, hoob⟩ := applyField_out_pres cfg 0
        (parseNum cfg.dtype (c :: r)).1 (parseNum cfg.dtype (c :: r)).2
        (List.replicate cfg.labelCount (RVal.num 0 0)) RVal.nan 0
        ⟨⟨[], [], [0], [], [], cfg.labelCount⟩, false⟩
      have hfr : fieldLoop cfg [] (r.length + 1 + 1) (c :: r) 0 0
          (List.replicate cfg.labelCount (RVal.num 0 0)) RVal.nan
          ⟨⟨[], [], [0], [], [], cfg.labelCount⟩, false⟩ =
          ⟨List.replicate cfg.labelCount (RVal.num 0 0), RVal.nan,
            ⟨(applyField cfg 0 (parseNum cfg.dtype (c :: r)).1
                (parseNum cfg.dtype (c :: r)).2
                (List.replicate cfg.labelCount (RVal.num 0 0)) RVal.nan 0
                ⟨⟨[], [], [0], [], [], cfg.labelCount⟩, false⟩).st.out, true⟩,
            false⟩ := by
        simp only [fieldLoop]
        rw [hscan]
        simp [hidx, hlab, hw]
      have hstep : lineStep cfg true (c :: r)
          ⟨⟨[], [], [0], [], [], cfg.labelCount⟩, false⟩ =
          Sum.inl ([],
            ⟨closeRow (List.replicate cfg.labelCount (RVal.num 0 0)) RVal.nan
                (applyField cfg 0 (parseNum cfg.dtype (c :: r)).1
                  (parseNum cfg.dtype (c :: r)).2
                  (List.replicate cfg.labelCount (RVal.num 0 0)) RVal.nan 0
                  ⟨⟨[], [], [0], [], [], cfg.labelCount⟩, false⟩).st.out, true⟩) := by
        simp [lineStep, hbom, hlend, hfr, skipNewlines]
      have hline : lineLoop cfg ((c :: r).length + 1) true (c :: r)
          ⟨⟨[], [], [0], [], [], cfg.labelCount⟩, false⟩ =
          ⟨⟨closeRow (List.replicate cfg.labelCount (RVal.num 0 0)) RVal.nan
              (applyField cfg 0 (parseNum cfg.dtype (c :: r)).1
                (parseNum cfg.dtype (c :: r)).2
                (List.replicate cfg.labelCount (RVal.num 0 0)) RVal.nan 0
                ⟨⟨[], [], [0], [], [], cfg.labelCount⟩, false⟩).st.out, true⟩,
            false⟩ := by
        simp [lineLoop, hstep]
      rw [hline]
      simp [hl, hwc, closeRow_label, closeRow_label_count, closeRow_offset,
        closeRow_weight, hlcnt, hlab2, hoff, hwt, RVal.isNan, Nat.div_self hlc, hlc]
  · -- column 0 is a label column: the counter stays 0, fatal.
    have hfr : fieldLoop cfg [] (r.length + 1 + 1) (c :: r) 0 0
        (List.replicate cfg.labelCount (RVal.num 0 0)) RVal.nan
        ⟨⟨[], [], [0], [], [], cfg.labelCount⟩, false⟩ =
        ⟨(List.replicate cfg.labelCount (RVal.num 0 0)).set slot
            (parseNum cfg.dtype (c :: r)).1, RVal.nan,
          ⟨⟨[], [], [0], [], [], cfg.labelCount⟩, true⟩, true⟩ := by
      simp only [fieldLoop]
      rw [hscan, applyField_label cfg 0 _ _ _ _ _ _ slot hl]
      simp
    have hstep : lineStep cfg true (c :: r)
        ⟨⟨[], [], [0], [], [], cfg.labelCount⟩, false⟩ =
        Sum.inr ⟨⟨[], [], [0], [], [], cfg.labelCount⟩, true⟩ := by
      simp [lineStep, hbom, hlend, hfr]
    have hline : lineLoop cfg ((c :: r).length + 1) true (c :: r)
        ⟨⟨[], [], [0], [], [], cfg.labelCount⟩, false⟩ =
        ⟨⟨⟨[], [], [0], [], [], cfg.labelCount⟩, true⟩, true⟩ := by
      simp [lineLoop, hstep]
    rw [hline]
    simp [hl]

/-- Witness for the amended C1 at concrete inputs. -/
theorem claim_C1_amended_witness :
    (∀ x ∈ '1' :: "23".toList, x ≠ oneLabelCfg.delim ∧ x ≠ '\n' ∧ x ≠ '\r') ∧
    stripBOM ('1' :: "23".toList) = '1' :: "23".toList ∧
    0 < oneLabelCfg.labelCount ∧
    ((ParseBlock oneLabelCfg ('1' :: "23".toList)).fst = none ↔
      ((oneLabelCfg.labelMap.lookup 0).isSome ∨
        oneLabelCfg.dtype = DTy.f32 ∧ (0 : Int) = oneLabelCfg.weightColumn)) :=
  ⟨by decide, by decide, by decide,
    claim_C1_amended oneLabelCfg '1' "23".toList (by decide) (by decide) (by decide)⟩

/-- C5: the byte-order-mark skip (modelled from the spec, see
`stripBOM`) applies to the first line of the block only.  First part:
for every configuration, prefixing a block with the BOM byte sequence
does not change the parse (the BOM at the start of the first line is
skipped).  Second part: a BOM byte sequence at the start of a later
line is scanned as field content — in the concrete block
`"1,2\n" ++ BOM ++ "3,4\n"` the second line's first field starts with
the BOM bytes, parses as an empty feature (consuming the index slot 0),
and `4` lands at feature index 1, so `value = [1, 2, 4]` and
`index = [0, 1, 1]` instead of the `[1, 2, 3, 4]` a skipped BOM would
give. -/
theorem claim_C5_bom_first_line_only (cfg : Config) (rest : List Char)
    (hne : rest ≠ []) (hbom : stripBOM rest = rest)
    (hnl : dropLeadingNL rest = rest) :
    ParseBlock cfg (bomChars ++ rest) = ParseBlock cfg rest ∧
    ParseBlock defaultCfg ("1,2\n".toList ++ bomChars ++ "3,4\n".toList) =
      (some ⟨[0, 1, 1], [RVal.num 1 0, RVal.num 2 0, RVal.num 4 0], [0, 2, 3],
        [RVal.num 0 0, RVal.num 0 0], [], 1⟩, true) := by
  constructor
  · have hstepEq : lineStep cfg true (bomChars ++ rest)
        ⟨⟨[], [], [0], [], [], cfg.labelCount⟩, false⟩ =
        lineStep cfg true rest ⟨⟨[], [], [0], [], [], cfg.labelCount⟩, false⟩ := by
      simp [lineStep, stripBOM_bom_append, hbom]
    have hlen : (bomChars ++ rest).length + 1 = rest.length + 3 + 1 := by
      simp [bomChars]
    have hLL : lineLoop cfg ((bomChars ++ rest).length + 1) true (bomChars ++ rest)
        ⟨⟨[], [], [0], [], [], cfg.labelCount⟩, false⟩ =
        lineLoop cfg (rest.length + 1) true rest
        ⟨⟨[], [], [0], [], [], cfg.labelCount⟩, false⟩ := by
      rw [hlen]
      simp only [lineLoop]
      rw [if_neg (show ¬((bomChars ++ rest).isEmpty = true) by simp [bomChars]),
        if_neg (show ¬(rest.isEmpty = true) by
          cases rest
          · exact absurd rfl hne
          · simp)]
      rw [hstepEq]
      cases hs : lineStep cfg true rest ⟨⟨[], [], [0], [], [], cfg.labelCount⟩, false⟩ with
      | inr st2 => rfl
      | inl next =>
        have hlt := lineStep_next_lt cfg true rest
          ⟨⟨[], [], [0], [], [], cfg.labelCount⟩, false⟩ next hs hne
        exact lineLoop_fuel_irrel cfg (rest.length + 3) rest.length false next.1 next.2
          (by omega) (by omega)
    have hdropL : dropLeadingNL (bomChars ++ rest) = bomChars ++ rest := by
      have he : bomChars ++ rest =
          Char.ofNat 0xEF :: (Char.ofNat 0xBB :: Char.ofNat 0xBF :: rest) := rfl
      rw [he]
      exact dropLeadingNL_cons_of_not_nl _ _ (by decide)
    simp only [ParseBlock, hdropL, hnl]
    rw [hLL]
  · decide

/-- Witness for C5 at a concrete input. -/
theorem claim_C5_witness :
    ("5,6\n".toList ≠ [] ∧ stripBOM "5,6\n".toList = "5,6\n".toList ∧
      dropLeadingNL "5,6\n".toList = "5,6\n".toList) ∧
    ParseBlock defaultCfg (bomChars ++ "5,6\n".toList) =
      ParseBlock defaultCfg "5,6\n".toList :=
  ⟨⟨by decide, by decide, by decide⟩,
    (claim_C5_bom_first_line_only defaultCfg "5,6\n".toList (by decide) (by decide)
      (by decide)).1⟩

end DmlcCsv
